import Mathlib

/- Verification of the PlateeRAG backend: the workflow dependency scheduler and
execution engine (modelled from the design spec, since src/workflow_executor.py
is not among the given sources), the node HTTP controller
(src/controller/nodeController.py) and the configuration composer
(src/config/config_composer.py), shallowly embedded in Lean. -/

namespace PlateeRAG

/-- An edge of a workflow graph: the target instance's input port `targetPort`
is supplied by the source instance's output port `sourcePort`. Field names
follow the request shape source/sourcePort/target/targetPort. -/
structure Edge where
  source : String
  sourcePort : String
  target : String
  targetPort : String
  deriving DecidableEq, Repr

/-- A node instance of one workflow request: instance id, node type id and the
literal parameter assignment. The parameter value type is abstract (JSON
values in the source). -/
structure NodeInstance (α : Type) where
  id : String
  type : String
  parameters : List (String × α)
  deriving DecidableEq, Repr

/-- Modelled from the spec: the in-memory Workflow Graph of one execution
request (section 3 of the design): node instances plus the edges connecting
their ports. The executor holding it, src/workflow_executor.py, is not among
the given sources. -/
structure WorkflowGraph (α : Type) where
  nodes : List (NodeInstance α)
  edges : List Edge
  deriving DecidableEq, Repr

/-- The instance ids of a graph, in request order. -/
def ids {α : Type} (g : WorkflowGraph α) : List String :=
  g.nodes.map (fun n => n.id)

/-- The edge list contains a directed edge from instance a to instance b. -/
def hasEdge (edges : List Edge) (a b : String) : Prop :=
  ∃ e ∈ edges, e.source = a ∧ e.target = b

/-- Instance n has no unresolved dependency: no edge into n whose source is
a still-remaining instance. -/
def noUnresolvedDep (edges : List Edge) (remaining : List String) (n : String) : Bool :=
  !(edges.any (fun e => e.target == n && remaining.contains e.source))

/-- Modelled from the spec: the Kahn-style reduction of the Dependency
Scheduler (section 4.2): repeatedly extract the set of remaining instances
with no unresolved dependencies as one batch and remove it; if at some pass
no instance is extractable while some remain, the remaining subgraph contains
a cycle and the remaining ids are reported as the CycleError. The fuel
argument bounds the number of passes; `order` supplies enough fuel. -/
def kahnLoop (edges : List Edge) : Nat → List String → Except (List String) (List (List String))
  | 0, remaining => if remaining.isEmpty then .ok [] else .error remaining
  | fuel + 1, remaining =>
    if remaining.isEmpty then .ok []
    else
      let zero := remaining.filter (noUnresolvedDep edges remaining)
      if zero.isEmpty then .error remaining
      else
        match kahnLoop edges fuel (remaining.filter (fun n => !(zero.contains n))) with
        | .ok bs => .ok (zero :: bs)
        | .error r => .error r

/-- Modelled from the spec: order(graph) -> sequence of instance-id batches,
or CycleError naming the stuck instance ids (section 4.2). -/
def order {α : Type} (g : WorkflowGraph α) : Except (List String) (List (List String)) :=
  kahnLoop g.edges (ids g).length (ids g)

/-- Per-instance execution status (section 3 ExecutionResult, section 4.3
skip marking). -/
inductive ExecStatus where
  | success : ExecStatus
  | failed : String → ExecStatus
  | skipped : ExecStatus
  deriving DecidableEq, Repr

/-- Modelled from the spec: the per-instance ExecutionResult: an output
mapping port name to value, and a status (section 3). -/
structure ExecutionResult (α : Type) where
  outputs : List (String × α)
  status : ExecStatus
  deriving DecidableEq, Repr

/-- Modelled from the spec: a Node Descriptor's execution function
(section 2): resolved inputs to outputs, or a node-level failure. -/
structure Descriptor (α : Type) where
  exec : List (String × α) → Except String (List (String × α))

/-- Modelled from the spec: the Registry lookup capability
resolve(type_id) -> Descriptor | NotFound (section 6). -/
def Registry (α : Type) : Type :=
  String → Option (Descriptor α)

/-- Look up an instance's cached ExecutionResult in the results mapping. -/
def lookupResult {α : Type} (results : List (String × ExecutionResult α)) (iid : String) :
    Option (ExecutionResult α) :=
  (results.find? (fun p => p.1 == iid)).map (fun p => p.2)

/-- Boolean success test on a status. -/
def ExecStatus.isSuccess : ExecStatus → Bool
  | .success => true
  | _ => false

/-- The value a consumer edge reads: the cached ExecutionResult of the edge's
source instance, projected at the edge's source port (section 4.3). -/
def consumerValue {α : Type} (results : List (String × ExecutionResult α)) (e : Edge) :
    Option α :=
  (lookupResult results e.source).bind
    (fun r => (r.outputs.find? (fun pv => pv.1 == e.sourcePort)).map (fun pv => pv.2))

/-- Modelled from the spec (section 4.3): execute one scheduled instance
against the current results mapping: if some dependency result is missing or
not successful the instance is marked skipped without being invoked;
otherwise its inputs are resolved (literal parameters plus inbound-edge
values) and the Descriptor's execution function is invoked, producing a
success or failed result. The second component records whether the execution
function was invoked. -/
def execStep {α : Type} (reg : Registry α) (g : WorkflowGraph α)
    (results : List (String × ExecutionResult α)) (iid : String) :
    ExecutionResult α × Bool :=
  match g.nodes.find? (fun inst => inst.id == iid) with
  | none => (⟨[], .failed "unknown instance"⟩, false)
  | some inst =>
    let inEdges := g.edges.filter (fun e => e.target == iid)
    if inEdges.any (fun e =>
        match lookupResult results e.source with
        | some r => ! r.status.isSuccess
        | none => true) then
      (⟨[], .skipped⟩, false)
    else
      match reg inst.type with
      | none => (⟨[], .failed "unknown node type"⟩, false)
      | some d =>
        let inputs := inst.parameters ++
          inEdges.filterMap (fun e => (consumerValue results e).map (fun v => (e.targetPort, v)))
        match d.exec inputs with
        | .ok outs => (⟨outs, .success⟩, true)
        | .error msg => (⟨[], .failed msg⟩, true)

/-- Modelled from the spec (section 4.3): run the scheduled instances in
order, threading the write-once results mapping and recording the trace of
instance ids whose execution function was actually invoked. -/
def runSchedule {α : Type} (reg : Registry α) (g : WorkflowGraph α) :
    List String → List (String × ExecutionResult α) →
    List (String × ExecutionResult α) × List String
  | [], results => (results, [])
  | iid :: rest, results =>
    let step := execStep reg g results iid
    let next := runSchedule reg g rest (results ++ [(iid, step.1)])
    (next.1, (if step.2 then [iid] else []) ++ next.2)

/-- Modelled from the spec: the full execution pipeline: the Dependency
Scheduler computes the batch order and only on success is the Execution
Engine invoked on the flattened batches; a CycleError aborts the run before
any ExecutionResult is produced (sections 4.2, 4.3, 7). Returns the final
results mapping and the invocation trace. -/
def executeWorkflow {α : Type} (reg : Registry α) (g : WorkflowGraph α) :
    Except (List String) (List (String × ExecutionResult α) × List String) :=
  match order g with
  | .error r => .error r
  | .ok bs => .ok (runSchedule reg g bs.flatten [])

/-- A FastAPI HTTPException as raised by nodeController.py: status code and
detail string. -/
structure HTTPException where
  statusCode : Nat
  detail : String
  deriving DecidableEq, Repr

/-- Embeds the pydantic request model Workflow of nodeController.py lines
28-31: the three required fields nodes, edges and view, none with a default. -/
structure Workflow (J : Type) where
  nodes : List J
  edges : List J
  view : J

/-- Pydantic validation of the Workflow request model: a required field
without a default that is absent from the request makes validation fail, so
exactly the requests supplying all three fields are accepted. -/
def workflowModelValidate {J : Type} (nodesField edgesField : Option (List J))
    (viewField : Option J) : Option (Workflow J) :=
  match nodesField, edgesField, viewField with
  | some ns, some es, some v => some ⟨ns, es, v⟩
  | _, _, _ => none

/-- The outcome of WorkflowExecutor.execute_workflow as observed by the
endpoint. Modelled from the spec, since src/workflow_executor.py is not among
the given sources: success carries the final outputs (the run completed;
node-level failures are reported inside the outputs as per-instance statuses,
section 4.4); valueError is a pre-execution validation failure surfaced as a
ValueError (section 7: graph errors are client errors); unexpectedError is
anything else (section 7 InternalError). -/
inductive ExecutorOutcome (β : Type) where
  | success : β → ExecutorOutcome β
  | valueError : String → ExecutorOutcome β
  | unexpectedError : String → ExecutorOutcome β

/-- A value of the JSON response dict built by execute_workflow: a string
field or the outputs mapping. -/
inductive RespValue (β : Type) where
  | str : String → RespValue β
  | outs : β → RespValue β
  deriving DecidableEq, Repr

/-- Embeds execute_workflow of nodeController.py lines 80-100: on success the
literal response dict with keys status, message, outputs; a ValueError is
turned into HTTPException(400, str(e)); any other exception into
HTTPException(500, "Internal Server Error"). -/
def executeEndpoint {β : Type} (outcome : ExecutorOutcome β) :
    Except HTTPException (List (String × RespValue β)) :=
  match outcome with
  | .success outs =>
    .ok [("status", .str "success"), ("message", .str "워크플로우 실행 완료"), ("outputs", .outs outs)]
  | .valueError msg => .error ⟨400, msg⟩
  | .unexpectedError _ => .error ⟨500, "Internal Server Error"⟩

/-- The process-global ambient state the node controller reads and writes:
the exported node catalog file ./constants/exported_nodes.json (none = the
file is missing). -/
structure AmbientState (J : Type) where
  exportedNodesFile : Option (List J)
  deriving DecidableEq, Repr

/-- The try body of get_node_list (nodeController.py lines 34-44): raise
HTTPException(404) when the exported catalog file is missing or its parsed
content is empty, otherwise return the nodes. -/
def getNodeListBody {J : Type} (file : Option (List J)) : Except HTTPException (List J) :=
  match file with
  | none => .error ⟨404, "No nodes available. Please run discovery first."⟩
  | some ns =>
    if ns.isEmpty then .error ⟨404, "No nodes available. Please run discovery first."⟩
    else .ok ns

/-- Embeds get_node_list (nodeController.py lines 33-47): the enclosing
`except Exception` clause catches every exception of the body, including the
HTTPException(404) the body itself raised, and replaces it with
HTTPException(500, "Internal Server Error"). -/
def get_node_list {J : Type} (file : Option (List J)) : Except HTTPException (List J) :=
  match getNodeListBody file with
  | .ok v => .ok v
  | .error _ => .error ⟨500, "Internal Server Error"⟩

/-- Embeds list_nodes (GET /node/get, nodeController.py lines 49-58): an
HTTPException coming out of get_node_list is re-raised unchanged; other
exceptions would become a 500. -/
def list_nodes {J : Type} (file : Option (List J)) : Except HTTPException (List J) :=
  match get_node_list file with
  | .ok v => .ok v
  | .error e => .error e

/-- Embeds export_nodes (GET /node/export, nodeController.py lines 60-78),
with run_discovery and generate_json_spec modelled from the spec (they live
in src/node_composer.py, not among the given sources): refresh the registry
and write its node catalog to the process-global exported-nodes file, then
report success. -/
def export_nodes {J : Type} (registry : List J) (_s : AmbientState J) :
    AmbientState J × Except HTTPException (List (String × String)) :=
  (⟨some registry⟩,
   .ok [("status", "success"), ("message", "Nodes exported successfully"),
        ("file", "./constants/exported_nodes.json")])

/-- A parameter spec as surfaced in the registry JSON; the categorization
endpoint reads only the optional flag, via param.get("optional", False). -/
structure ParamSpec where
  name : String
  optional : Bool
  deriving DecidableEq, Repr

/-- A registry entry as read by the categorization endpoint. -/
structure NodeMeta where
  id : String
  nodeName : String
  description : String
  parameters : List ParamSpec
  deriving DecidableEq, Repr

/-- The response of the categorized-parameters endpoint. -/
structure CategorizedParams where
  node_id : String
  node_name : String
  description : String
  basic_parameters : List ParamSpec
  advanced_parameters : List ParamSpec
  has_advanced : Bool
  deriving DecidableEq, Repr

/-- The classification loop of get_categorized_parameters (nodeController.py
lines 263-267): optional parameters are appended to advanced_params, all
others to basic_params, in declaration order. -/
def categorizeLoop (params : List ParamSpec) : List ParamSpec × List ParamSpec :=
  params.foldl
    (fun acc p => if p.optional then (acc.1, acc.2 ++ [p]) else (acc.1 ++ [p], acc.2))
    ([], [])

/-- Embeds get_categorized_parameters (GET /node/parameters/categorized,
nodeController.py lines 249-284): find the first registry node with the given
id, classify its parameters and answer with has_advanced =
(len(advanced_params) > 0); 404 when no node matches. The registry is
returned unchanged to express that the call only reads it. -/
def get_categorized_parameters (registry : List NodeMeta) (node_id : String) :
    List NodeMeta × Except HTTPException CategorizedParams :=
  match registry.find? (fun node => node.id == node_id) with
  | some node =>
    let parts := categorizeLoop node.parameters
    (registry,
     .ok ⟨node_id, node.nodeName, node.description, parts.1, parts.2,
          decide (parts.2.length > 0)⟩)
  | none => (registry, .error ⟨404, "Node with id " ++ node_id ++ " not found"⟩)

/-- The result record built by validate_critical_configs. -/
structure ValidationResults where
  valid : Bool
  warnings : List String
  errors : List String
  deriving DecidableEq, Repr

/-- The parts of the ConfigComposer state read by validate_critical_configs:
none models a missing category or missing attribute, some the attribute's
value. -/
structure ConfigComposerState where
  openaiApiKey : Option String
  appPort : Option Int
  workflowTimeout : Option Int
  deriving DecidableEq, Repr

/-- Embeds validate_critical_configs (config_composer.py lines 206-242):
start from valid with empty warning and error lists; a missing or blank
OpenAI API key appends a warning; a port outside 1..65535 appends an error
and clears valid; a non-positive workflow execution timeout appends an error
and clears valid. -/
def validate_critical_configs (s : ConfigComposerState) : ValidationResults :=
  let r0 : ValidationResults := ⟨true, [], []⟩
  let r1 :=
    match s.openaiApiKey with
    | some key =>
      if key = "" ∨ key.trim = "" then
        { r0 with warnings := r0.warnings ++ ["OpenAI API key is not configured"] }
      else r0
    | none => r0
  let r2 :=
    match s.appPort with
    | some port =>
      if ¬ (1 ≤ port ∧ port ≤ 65535) then
        { r1 with errors := r1.errors ++ ["Invalid port number: " ++ toString port],
                  valid := false }
      else r1
    | none => r1
  let r3 :=
    match s.workflowTimeout with
    | some t =>
      if t ≤ 0 then
        { r2 with errors := r2.errors ++ ["Invalid workflow timeout: " ++ toString t],
                  valid := false }
      else r2
    | none => r2
  r3

/-- A 4xx-class (client error) HTTP status. -/
def HTTPException.isClientError (e : HTTPException) : Prop :=
  400 ≤ e.statusCode ∧ e.statusCode < 500

/-- A 5xx-class (server error) HTTP status. -/
def HTTPException.isServerError (e : HTTPException) : Prop :=
  500 ≤ e.statusCode ∧ e.statusCode < 600

/-- Fixture: a registry node with one required and one optional parameter. -/
def nodeEx : NodeMeta :=
  ⟨"n1", "Node One", "demo", [⟨"p1", false⟩, ⟨"p2", true⟩, ⟨"p3", false⟩]⟩

/-- Fixture: the edge A.out -> B.in. -/
def edgeAB : Edge := ⟨"A", "out", "B", "in"⟩

/-- Fixture: a two-node acyclic graph with the single edge A.out -> B.in. -/
def gAB : WorkflowGraph Int := ⟨[⟨"A", "t", []⟩, ⟨"B", "t", []⟩], [edgeAB]⟩

/-- Fixture: the two-node cyclic graph with edges A.out -> B.in and
B.out -> A.in from the spec scenario. -/
def gCyc : WorkflowGraph Int :=
  ⟨[⟨"A", "t", []⟩, ⟨"B", "t", []⟩],
   [⟨"A", "out", "B", "in"⟩, ⟨"B", "out", "A", "in"⟩]⟩

/-- Fixture: a registry with a constant source type, a pass-through type and
an always-failing type. -/
def regEx : Registry Int := fun t =>
  if t = "const5" then some ⟨fun _ => .ok [("out", 5)]⟩
  else if t = "pass" then some ⟨fun inputs => .ok [("out", (inputs.lookup "in").getD 0)]⟩
  else if t = "boom" then some ⟨fun _ => .error "boom"⟩
  else none

/-- Fixture: fan-out graph: X (const5) feeds both B and C (pass-through). -/
def gFan : WorkflowGraph Int :=
  ⟨[⟨"X", "const5", []⟩, ⟨"B", "pass", []⟩, ⟨"C", "pass", []⟩],
   [⟨"X", "out", "B", "in"⟩, ⟨"X", "out", "C", "in"⟩]⟩

/-- Fixture: fan-out graph whose fan-out node X depends on a failing node F. -/
def gFanFail : WorkflowGraph Int :=
  ⟨[⟨"F", "boom", []⟩, ⟨"X", "pass", []⟩, ⟨"B", "pass", []⟩, ⟨"C", "pass", []⟩],
   [⟨"F", "out", "X", "in"⟩, ⟨"X", "out", "B", "in"⟩, ⟨"X", "out", "C", "in"⟩]⟩

/-- Fixture: the results mapping the engine produces on gFan. -/
def resFan : List (String × ExecutionResult Int) :=
  [("X", ⟨[("out", 5)], .success⟩), ("B", ⟨[("out", 5)], .success⟩),
   ("C", ⟨[("out", 5)], .success⟩)]

-- Theorems

/-- C4: the POST /node/execute endpoint maps a pre-execution validation
failure (surfaced by the executor as a ValueError) to a 4xx client error, an
unexpected internal error to a 5xx error, and a run that completed (node
failures, if any, reported inside the outputs) to a success response, so a
response always distinguishes an invalid workflow definition from a run with
node-level failures. -/
theorem execute_endpoint_error_contract {β : Type} (msg : String) (outs : β) :
    (∃ e, executeEndpoint (β := β) (.valueError msg) = .error e ∧ e.isClientError) ∧
    (∃ e, executeEndpoint (β := β) (.unexpectedError msg) = .error e ∧ e.isServerError) ∧
    (∃ resp, executeEndpoint (.success outs) = .ok resp) ∧
    (∀ m, executeEndpoint (.success outs) ≠ executeEndpoint (β := β) (.valueError m)) := by
  refine ⟨⟨⟨400, msg⟩, rfl, by constructor <;> simp⟩,
          ⟨⟨500, "Internal Server Error"⟩, rfl, by constructor <;> simp⟩,
          ⟨_, rfl⟩, ?_⟩
  intro m h
  simp [executeEndpoint] at h

/-- C5: every successful response of POST /node/execute is a mapping with
exactly the keys status, message and outputs, where status is the string
"success" and outputs is the mapping returned by the execution. -/
theorem execute_endpoint_success_shape {β : Type} (outs : β) :
    ∃ resp, executeEndpoint (.success outs) = .ok resp ∧
      resp.map Prod.fst = ["status", "message", "outputs"] ∧
      resp.lookup "status" = some (.str "success") ∧
      resp.lookup "outputs" = some (.outs outs) ∧
      resp.lookup "message" = some (.str "워크플로우 실행 완료") := by
  exact ⟨_, rfl, rfl, rfl, rfl, rfl⟩

/-- C6 counterexample: a request supplying exactly the fields nodes and edges
is rejected by the request model (the pydantic model also requires view), so
it is never passed to execution. -/
theorem workflow_model_rejects_nodes_edges_only :
    workflowModelValidate (J := Unit) (some []) (some []) none = none := rfl

/-- C6 amended: the request shape consumed by POST /node/execute consists of
three required fields: a nodes list, an edges list and a view mapping; every
request supplying all three fields is accepted by the request model with its
data passed through unchanged, while a request supplying only nodes and edges
(view absent) is rejected. -/
theorem workflow_model_shape {J : Type} (ns es : List J) (v : J) :
    workflowModelValidate (some ns) (some es) (some v) = some ⟨ns, es, v⟩ ∧
    (∀ nf ef : Option (List J), workflowModelValidate nf ef (none : Option J) = none) := by
  refine ⟨rfl, fun nf ef => ?_⟩
  cases nf <;> cases ef <;> rfl

/-- C7 counterexample: serving requests does reach into ambient process-wide
state: with the process-global exported catalog file absent, GET /node/get
answers a 500; serving GET /node/export mutates that global state, and the
same GET /node/get afterwards answers the exported nodes, so the mutation
persists across requests. -/
theorem ambient_state_counterexample :
    get_node_list ((⟨none⟩ : AmbientState Unit).exportedNodesFile) =
      .error ⟨500, "Internal Server Error"⟩ ∧
    (export_nodes [()] (⟨none⟩ : AmbientState Unit)).1 ≠ (⟨none⟩ : AmbientState Unit) ∧
    get_node_list ((export_nodes [()] (⟨none⟩ : AmbientState Unit)).1.exportedNodesFile) =
      .ok [()] := by
  refine ⟨rfl, by decide, rfl⟩

/-- C7 amended: the node controller does read and mutate process-global
state: export_nodes writes the registry catalog into the process-global
exported-nodes file, and a later get_node_list call observes exactly that
write, so global mutable state persists between requests (config_composer.py
additionally builds the module-level singleton config_composer at import). -/
theorem export_mutates_ambient_state {J : Type} (registry : List J) (s : AmbientState J) :
    (export_nodes registry s).1.exportedNodesFile = some registry ∧
    (registry ≠ [] →
      get_node_list (export_nodes registry s).1.exportedNodesFile = .ok registry) := by
  refine ⟨rfl, fun h => ?_⟩
  simp [get_node_list, getNodeListBody, export_nodes, h]

/-- Witness for C7 amended: exporting a one-node catalog over a missing file
makes the next catalog read succeed with exactly that node. -/
theorem export_mutates_ambient_state_witness :
    ([()] ≠ ([] : List Unit)) ∧
    ((export_nodes [()] (⟨none⟩ : AmbientState Unit)).1.exportedNodesFile = some [()] ∧
     ([()] ≠ ([] : List Unit) →
       get_node_list (export_nodes [()] (⟨none⟩ : AmbientState Unit)).1.exportedNodesFile =
         .ok [()])) :=
  ⟨by decide, export_mutates_ambient_state [()] (⟨none⟩ : AmbientState Unit)⟩

/-- C9: when the exported catalog file is missing or parses to an empty
list, get_node_list surfaces HTTPException(500, "Internal Server Error"), not
the 404 it internally constructs, because the broad except clause replaces
it; the GET /node/get route re-raises that 500; and more generally no error
other than a 500 ever escapes get_node_list. -/
theorem get_node_list_masks_404 {J : Type} (file : Option (List J))
    (h : file = none ∨ file = some ([] : List J)) :
    get_node_list file = .error ⟨500, "Internal Server Error"⟩ ∧
    list_nodes file = .error ⟨500, "Internal Server Error"⟩ ∧
    (∀ e, get_node_list file = .error e → e.statusCode = 500) := by
  rcases h with h | h <;> subst h <;>
    exact ⟨rfl, rfl, by intro e he; cases he; rfl⟩

/-- Witness for C9: the missing-file case concretely yields the 500. -/
theorem get_node_list_masks_404_witness :
    ((none : Option (List Unit)) = none ∨ (none : Option (List Unit)) = some []) ∧
    (get_node_list (none : Option (List Unit)) = .error ⟨500, "Internal Server Error"⟩ ∧
     list_nodes (none : Option (List Unit)) = .error ⟨500, "Internal Server Error"⟩ ∧
     (∀ e, get_node_list (none : Option (List Unit)) = .error e → e.statusCode = 500)) :=
  ⟨Or.inl rfl, get_node_list_masks_404 none (Or.inl rfl)⟩

/-- The blank-key test of validate_critical_configs as a Boolean. -/
def keyBlankB : Option String → Bool
  | some k => decide (k = "" ∨ k.trim = "")
  | none => false

/-- The out-of-range-port test of validate_critical_configs as a Boolean. -/
def portBadB : Option Int → Bool
  | some p => decide (¬ (1 ≤ p ∧ p ≤ 65535))
  | none => false

/-- The non-positive-timeout test of validate_critical_configs as a Boolean. -/
def timeoutBadB : Option Int → Bool
  | some t => decide (t ≤ 0)
  | none => false

/-- Closed form of validate_critical_configs: valid is the conjunction of the
two error-free tests, the key only contributes a warning, and the error list
concatenates the port error and the timeout error when present. -/
theorem validate_critical_configs_eval (ok : Option String) (ap wt : Option Int) :
    validate_critical_configs ⟨ok, ap, wt⟩ =
    ⟨!(portBadB ap || timeoutBadB wt),
     if keyBlankB ok then ["OpenAI API key is not configured"] else [],
     (if portBadB ap then ["Invalid port number: " ++ toString (ap.getD 0)] else []) ++
     (if timeoutBadB wt then ["Invalid workflow timeout: " ++ toString (wt.getD 0)] else [])⟩ := by
  cases ok <;> cases ap <;> cases wt <;>
    simp only [validate_critical_configs, keyBlankB, portBadB, timeoutBadB,
      Option.getD, decide_eq_true_eq, Bool.or_false, Bool.false_or] <;>
    split_ifs <;> simp_all

/-- C10: for every ConfigComposer state, validate_critical_configs answers
valid = true exactly when its error list is empty; an out-of-range port or a
non-positive workflow timeout each append an error and clear valid; a blank
OpenAI API key appends only a warning and never influences valid. -/
theorem validate_critical_configs_contract (s : ConfigComposerState) :
    ((validate_critical_configs s).valid = true ↔ (validate_critical_configs s).errors = []) ∧
    (∀ p, s.appPort = some p → ¬ (1 ≤ p ∧ p ≤ 65535) →
      (validate_critical_configs s).valid = false ∧
      ("Invalid port number: " ++ toString p) ∈ (validate_critical_configs s).errors) ∧
    (∀ t, s.workflowTimeout = some t → t ≤ 0 →
      (validate_critical_configs s).valid = false ∧
      ("Invalid workflow timeout: " ++ toString t) ∈ (validate_critical_configs s).errors) ∧
    (∀ k, s.openaiApiKey = some k → (k = "" ∨ k.trim = "") →
      "OpenAI API key is not configured" ∈ (validate_critical_configs s).warnings) ∧
    (∀ k, (validate_critical_configs { s with openaiApiKey := k }).valid =
          (validate_critical_configs s).valid) := by
  obtain ⟨ok, ap, wt⟩ := s
  have hev := validate_critical_configs_eval ok ap wt
  refine ⟨?_, ?_, ?_, ?_, ?_⟩
  · rw [hev]
    cases hpb : portBadB ap <;> cases htb : timeoutBadB wt <;> simp
  · intro p hp hrange
    cases hp
    have hpb : portBadB (some p) = true := by
      simp only [portBadB, decide_eq_true_eq]; exact hrange
    rw [hev]
    simp [hpb]
  · intro t ht hnp
    cases ht
    have htb : timeoutBadB (some t) = true := by
      simp only [timeoutBadB, decide_eq_true_eq]; exact hnp
    rw [hev]
    simp [htb]
  · intro k hk hblank
    cases hk
    have hkb : keyBlankB (some k) = true := by
      simp only [keyBlankB, decide_eq_true_eq]; exact hblank
    rw [hev]
    simp [hkb]
  · intro k
    have hev2 := validate_critical_configs_eval k ap wt
    simp only [hev, hev2]

/-- Witness for C10: a state with a blank key, port 0 and timeout 0 yields
valid = false with the port error present and the key warning present. -/
theorem validate_critical_configs_contract_witness :
    (¬ ((1:Int) ≤ 0 ∧ (0:Int) ≤ 65535)) ∧
    (validate_critical_configs ⟨some "", some 0, some 0⟩).valid = false ∧
    ("Invalid port number: " ++ toString (0 : Int)) ∈
      (validate_critical_configs ⟨some "", some 0, some 0⟩).errors ∧
    "OpenAI API key is not configured" ∈
      (validate_critical_configs ⟨some "", some 0, some 0⟩).warnings := by
  have h := validate_critical_configs_contract ⟨some "", some 0, some 0⟩
  have hp := h.2.1 0 rfl (by omega)
  have hw := h.2.2.2.1 "" rfl (Or.inl rfl)
  exact ⟨by omega, hp.1, hp.2, hw⟩

/-- The categorization loop with arbitrary accumulators appends exactly the
non-optional parameters to the first list and the optional ones to the
second, preserving declaration order. -/
theorem categorize_foldl (params : List ParamSpec) (b a : List ParamSpec) :
    params.foldl
      (fun acc p => if p.optional then (acc.1, acc.2 ++ [p]) else (acc.1 ++ [p], acc.2))
      (b, a) =
    (b ++ params.filter (fun p => !p.optional), a ++ params.filter (fun p => p.optional)) := by
  induction params generalizing b a with
  | nil => simp
  | cons p rest ih =>
    by_cases hp : p.optional
    · simp [List.filter_cons, hp, ih]
    · simp [List.filter_cons, hp, ih]

/-- Counts in the two filtered lists add up to the count in the original. -/
theorem count_filter_split (params : List ParamSpec) (p : ParamSpec) :
    params.count p =
      (params.filter (fun q => !q.optional)).count p +
      (params.filter (fun q => q.optional)).count p := by
  by_cases hp : p.optional
  · have h0 : (params.filter (fun q => !q.optional)).count p = 0 := by
      refine List.count_eq_zero.mpr (fun hmem => ?_)
      rcases List.mem_filter.mp hmem with ⟨-, hq⟩
      simp [hp] at hq
    rw [h0, List.count_filter (by simpa using hp)]
    omega
  · have h0 : (params.filter (fun q => q.optional)).count p = 0 := by
      refine List.count_eq_zero.mpr (fun hmem => ?_)
      rcases List.mem_filter.mp hmem with ⟨-, hq⟩
      simp [hp] at hq
    rw [h0, List.count_filter (by simpa using hp)]
    omega

/-- C8: for a registered node id, the categorized-parameters endpoint
partitions the node's declared parameter list into basic (required) and
advanced (optional) according to each parameter's optional flag: each
parameter lands in exactly one of the two lists with relative order
preserved; has_advanced is true exactly when advanced_parameters is
non-empty; and the registry is returned unchanged. -/
theorem categorized_parameters_contract (registry : List NodeMeta) (node_id : String)
    (node : NodeMeta) (hfind : registry.find? (fun n => n.id == node_id) = some node) :
    (get_categorized_parameters registry node_id).1 = registry ∧
    ∃ resp, (get_categorized_parameters registry node_id).2 = .ok resp ∧
      resp.basic_parameters = node.parameters.filter (fun p => !p.optional) ∧
      resp.advanced_parameters = node.parameters.filter (fun p => p.optional) ∧
      resp.basic_parameters.Sublist node.parameters ∧
      resp.advanced_parameters.Sublist node.parameters ∧
      (∀ p, node.parameters.count p =
        resp.basic_parameters.count p + resp.advanced_parameters.count p) ∧
      (resp.has_advanced = true ↔ resp.advanced_parameters ≠ []) := by
  have hcat : categorizeLoop node.parameters =
      (node.parameters.filter (fun p => !p.optional),
       node.parameters.filter (fun p => p.optional)) := by
    simpa [categorizeLoop] using categorize_foldl node.parameters [] []
  unfold get_categorized_parameters
  rw [hfind]
  have h1 : (categorizeLoop node.parameters).1 =
      node.parameters.filter (fun p => !p.optional) := by rw [hcat]
  have h2 : (categorizeLoop node.parameters).2 =
      node.parameters.filter (fun p => p.optional) := by rw [hcat]
  refine ⟨rfl, _, rfl, h1, h2, ?_, ?_, ?_, ?_⟩
  · rw [h1]; exact List.filter_sublist _
  · rw [h2]; exact List.filter_sublist _
  · intro p
    rw [h1, h2]
    exact count_filter_split node.parameters p
  · rw [h2]
    simp only [decide_eq_true_eq]
    constructor
    · intro hlen
      exact List.ne_nil_of_length_pos hlen
    · intro hne
      exact List.length_pos.mpr hne

/-- Witness for C8: the fixture node with parameters p1 (required), p2
(optional), p3 (required) is categorized into basic [p1, p3] and advanced
[p2]. -/
theorem categorized_parameters_contract_witness :
    ([nodeEx].find? (fun n => n.id == "n1") = some nodeEx) ∧
    ((get_categorized_parameters [nodeEx] "n1").1 = [nodeEx] ∧
     ∃ resp, (get_categorized_parameters [nodeEx] "n1").2 = .ok resp ∧
      resp.basic_parameters = nodeEx.parameters.filter (fun p => !p.optional) ∧
      resp.advanced_parameters = nodeEx.parameters.filter (fun p => p.optional) ∧
      resp.basic_parameters.Sublist nodeEx.parameters ∧
      resp.advanced_parameters.Sublist nodeEx.parameters ∧
      (∀ p, nodeEx.parameters.count p =
        resp.basic_parameters.count p + resp.advanced_parameters.count p) ∧
      (resp.has_advanced = true ↔ resp.advanced_parameters ≠ [])) :=
  ⟨rfl, categorized_parameters_contract [nodeEx] "n1" nodeEx rfl⟩

-- Scheduler lemmas

/-- An instance with an unresolved dependency is exactly one with an inbound
edge whose source is still remaining. -/
theorem noUnresolvedDep_false_iff (edges : List Edge) (remaining : List String) (n : String) :
    noUnresolvedDep edges remaining n = false ↔
    ∃ e ∈ edges, e.target = n ∧ e.source ∈ remaining := by
  simp [noUnresolvedDep]

/-- Membership in the zero-in-degree batch, as a Boolean equation, for
remaining instances. -/
theorem zero_contains_eq (edges : List Edge) (remaining : List String) (n : String)
    (hn : n ∈ remaining) :
    (remaining.filter (noUnresolvedDep edges remaining)).contains n =
    noUnresolvedDep edges remaining n := by
  cases hp : noUnresolvedDep edges remaining n <;> simp_all [List.mem_filter]

/-- One scheduler pass splits the remaining instances into the zero batch and
the rest, up to permutation. -/
theorem zero_append_rest_perm (edges : List Edge) (remaining : List String) :
    (remaining.filter (noUnresolvedDep edges remaining) ++
     remaining.filter (fun n =>
       !((remaining.filter (noUnresolvedDep edges remaining)).contains n))).Perm remaining := by
  have hcong : remaining.filter (fun n =>
      !((remaining.filter (noUnresolvedDep edges remaining)).contains n)) =
      remaining.filter (fun n => !(noUnresolvedDep edges remaining n)) :=
    List.filter_congr (fun n hn => by rw [zero_contains_eq edges remaining n hn])
  rw [hcong]
  exact List.filter_append_perm _ remaining

/-- Every ok result of the scheduler loop flattens to a permutation of the
remaining instances it was started on: the batches partition the ids. -/
theorem kahnLoop_flatten_perm (edges : List Edge) :
    ∀ (fuel : Nat) (remaining : List String) (bs : List (List String)),
      kahnLoop edges fuel remaining = .ok bs → bs.flatten.Perm remaining := by
  intro fuel
  induction fuel with
  | zero =>
    intro remaining bs h
    simp only [kahnLoop] at h
    split at h
    · cases h
      rename_i hempty
      rw [List.isEmpty_iff.mp hempty]
      rfl
    · exact Except.noConfusion h
  | succ fuel ih =>
    intro remaining bs h
    simp only [kahnLoop] at h
    split at h
    · cases h
      rename_i hempty
      rw [List.isEmpty_iff.mp hempty]
      rfl
    · split at h
      · exact Except.noConfusion h
      · split at h
        · rename_i bs' hrec
          cases h
          have hperm := ih _ _ hrec
          have := (hperm.append_left (remaining.filter (noUnresolvedDep edges remaining))).trans
            (zero_append_rest_perm edges remaining)
          simpa using this
        · exact Except.noConfusion h

/-- In every ok result of the scheduler loop, an edge between remaining
instances places its source in a strictly earlier batch than its target. -/
theorem kahnLoop_edge_order (edges : List Edge) :
    ∀ (fuel : Nat) (remaining : List String) (bs : List (List String)),
      kahnLoop edges fuel remaining = .ok bs →
      ∀ e ∈ edges, e.source ∈ remaining → e.target ∈ remaining →
        ∃ i j, i < j ∧ ∃ (hi : i < bs.length) (hj : j < bs.length),
          e.source ∈ bs.get ⟨i, hi⟩ ∧ e.target ∈ bs.get ⟨j, hj⟩ := by
  intro fuel
  induction fuel with
  | zero =>
    intro remaining bs h e he hsrc htgt
    simp only [kahnLoop] at h
    split at h
    · rename_i hempty
      rw [List.isEmpty_iff.mp hempty] at hsrc
      exact absurd hsrc (List.not_mem_nil _)
    · exact Except.noConfusion h
  | succ fuel ih =>
    intro remaining bs h e he hsrc htgt
    simp only [kahnLoop] at h
    split at h
    · rename_i hempty
      rw [List.isEmpty_iff.mp hempty] at hsrc
      exact absurd hsrc (List.not_mem_nil _)
    · split at h
      · exact Except.noConfusion h
      · split at h
        · rename_i bs' hrec
          cases h
          have hpt : noUnresolvedDep edges remaining e.target = false :=
            (noUnresolvedDep_false_iff edges remaining e.target).mpr ⟨e, he, rfl, hsrc⟩
          have htz : e.target ∉ remaining.filter (noUnresolvedDep edges remaining) := by
            intro hmem
            rw [(List.mem_filter.mp hmem).2] at hpt
            exact Bool.noConfusion hpt
          have htr : e.target ∈ remaining.filter (fun n =>
              !((remaining.filter (noUnresolvedDep edges remaining)).contains n)) := by
            refine List.mem_filter.mpr ⟨htgt, ?_⟩
            have hor : e.target ∉ remaining ∨
                noUnresolvedDep edges remaining e.target = false := Or.inr hpt
            simpa using hor
          by_cases hsz : e.source ∈ remaining.filter (noUnresolvedDep edges remaining)
          · have hflat : e.target ∈ bs'.flatten :=
              (kahnLoop_flatten_perm edges fuel _ bs' hrec).mem_iff.mpr htr
            rcases List.mem_flatten.mp hflat with ⟨b, hb, htb⟩
            rcases List.mem_iff_get.mp hb with ⟨⟨j', hj'⟩, hbget⟩
            refine ⟨0, j' + 1, Nat.succ_pos j', by simp, by simpa using Nat.succ_lt_succ hj', ?_, ?_⟩
            · exact hsz
            · rw [← hbget] at htb
              simpa using htb
          · have hsr : e.source ∈ remaining.filter (fun n =>
                !((remaining.filter (noUnresolvedDep edges remaining)).contains n)) := by
              refine List.mem_filter.mpr ⟨hsrc, ?_⟩
              have hps : noUnresolvedDep edges remaining e.source = false := by
                cases hp : noUnresolvedDep edges remaining e.source
                · rfl
                · exact absurd (List.mem_filter.mpr ⟨hsrc, hp⟩) hsz
              have hor : e.source ∉ remaining ∨
                  noUnresolvedDep edges remaining e.source = false := Or.inr hps
              simpa using hor
            rcases ih _ bs' hrec e he hsr htr with ⟨i', j', hij, hi', hj', hsmem, htmem⟩
            exact ⟨i' + 1, j' + 1, Nat.succ_lt_succ hij,
              by simpa using Nat.succ_lt_succ hi', by simpa using Nat.succ_lt_succ hj',
              hsmem, htmem⟩
        · exact Except.noConfusion h

/-- No batch produced by the scheduler loop is empty. -/
theorem kahnLoop_batches_ne_nil (edges : List Edge) :
    ∀ (fuel : Nat) (remaining : List String) (bs : List (List String)),
      kahnLoop edges fuel remaining = .ok bs → ∀ b ∈ bs, b ≠ [] := by
  intro fuel
  induction fuel with
  | zero =>
    intro remaining bs h b hb
    simp only [kahnLoop] at h
    split at h
    · cases h
      exact absurd hb (List.not_mem_nil b)
    · exact Except.noConfusion h
  | succ fuel ih =>
    intro remaining bs h b hb
    simp only [kahnLoop] at h
    split at h
    · cases h
      exact absurd hb (List.not_mem_nil b)
    · by_cases hz0 : (remaining.filter (noUnresolvedDep edges remaining)).isEmpty = true
      · rw [if_pos hz0] at h
        exact Except.noConfusion h
      · rw [if_neg hz0] at h
        cases hrec : kahnLoop edges fuel (remaining.filter (fun n =>
            !((remaining.filter (noUnresolvedDep edges remaining)).contains n))) with
        | ok bs' =>
          rw [hrec] at h
          cases h
          rcases List.mem_cons.mp hb with rfl | hb'
          · intro hnil
            rw [hnil] at hz0
            exact hz0 rfl
          · exact ih _ bs' hrec b hb'
        | error r0 =>
          rw [hrec] at h
          exact Except.noConfusion h

/-- Removing a non-empty zero batch strictly shrinks the remaining list. -/
theorem rest_length_lt (edges : List Edge) (remaining : List String)
    (hz : (remaining.filter (noUnresolvedDep edges remaining)).isEmpty = false) :
    (remaining.filter (fun n =>
      !((remaining.filter (noUnresolvedDep edges remaining)).contains n))).length <
    remaining.length := by
  obtain ⟨x, hx⟩ : ∃ x, x ∈ remaining.filter (noUnresolvedDep edges remaining) :=
    List.exists_mem_of_ne_nil _ (by simpa [List.isEmpty_iff] using hz)
  have hxr : x ∈ remaining := (List.mem_filter.mp hx).1
  have hcon : (remaining.filter (noUnresolvedDep edges remaining)).contains x = true := by
    simpa using hx
  refine Nat.lt_of_le_of_ne (List.length_filter_le _ _) (fun heq => ?_)
  have hfe := List.Sublist.eq_of_length (List.filter_sublist remaining) heq
  have hx' : x ∈ remaining.filter (fun n =>
      !((remaining.filter (noUnresolvedDep edges remaining)).contains n)) := by
    rw [hfe]
    exact hxr
  have hq := (List.mem_filter.mp hx').2
  rw [hcon] at hq
  exact Bool.noConfusion hq

/-- Every CycleError of the scheduler loop (run with enough fuel) is
non-empty and closed under taking in-neighbours: each named instance has an
inbound edge from another named instance. -/
theorem kahnLoop_error_closed (edges : List Edge) :
    ∀ (fuel : Nat) (remaining : List String) (r : List String),
      remaining.length ≤ fuel → kahnLoop edges fuel remaining = .error r →
      r ≠ [] ∧ ∀ n ∈ r, ∃ m ∈ r, hasEdge edges m n := by
  intro fuel
  induction fuel with
  | zero =>
    intro remaining r hlen h
    have : remaining = [] := List.length_eq_zero.mp (Nat.le_zero.mp hlen)
    subst this
    simp only [kahnLoop, List.isEmpty_nil, if_true] at h
    exact Except.noConfusion h
  | succ fuel ih =>
    intro remaining r hlen h
    simp only [kahnLoop] at h
    split at h
    · exact Except.noConfusion h
    · rename_i hne
      by_cases hz : (remaining.filter (noUnresolvedDep edges remaining)).isEmpty = true
      · rw [if_pos hz] at h
        cases h
        refine ⟨by simpa [List.isEmpty_iff] using hne, ?_⟩
        intro n hn
        have hp : noUnresolvedDep edges remaining n = false := by
          cases hp : noUnresolvedDep edges remaining n
          · rfl
          · exfalso
            have : n ∈ remaining.filter (noUnresolvedDep edges remaining) :=
              List.mem_filter.mpr ⟨hn, hp⟩
            rw [List.isEmpty_iff.mp hz] at this
            exact List.not_mem_nil n this
        rcases (noUnresolvedDep_false_iff edges remaining n).mp hp with ⟨e, he, htgt, hsrc⟩
        exact ⟨e.source, hsrc, e, he, rfl, htgt⟩
      · rw [if_neg hz] at h
        cases hrec : kahnLoop edges fuel (remaining.filter (fun n =>
            !((remaining.filter (noUnresolvedDep edges remaining)).contains n))) with
        | ok bs' =>
          rw [hrec] at h
          exact Except.noConfusion h
        | error r0 =>
          rw [hrec] at h
          cases h
          have hlt := rest_length_lt edges remaining (by simpa using hz)
          exact ih _ _ (by omega) hrec

/-- A non-empty set of instances each having an in-neighbour inside the set
keeps the scheduler loop from ever succeeding: it stalls with a CycleError
that contains the whole set. -/
theorem kahnLoop_cycle_stalls (edges : List Edge) (C : List String) (hCne : C ≠ [])
    (hCclosed : ∀ n ∈ C, ∃ m ∈ C, hasEdge edges m n) :
    ∀ (fuel : Nat) (remaining : List String), (∀ n ∈ C, n ∈ remaining) →
      ∃ r, kahnLoop edges fuel remaining = .error r ∧ ∀ n ∈ C, n ∈ r := by
  intro fuel
  induction fuel with
  | zero =>
    intro remaining hsub
    obtain ⟨n0, hn0⟩ := List.exists_mem_of_ne_nil C hCne
    have hne : remaining.isEmpty = false := by
      rcases hrem : remaining with _ | ⟨a, l⟩
      · rw [hrem] at hsub
        exact absurd (hsub n0 hn0) (List.not_mem_nil n0)
      · rfl
    refine ⟨remaining, ?_, hsub⟩
    simp [kahnLoop, hne]
  | succ fuel ih =>
    intro remaining hsub
    obtain ⟨n0, hn0⟩ := List.exists_mem_of_ne_nil C hCne
    have hne : remaining.isEmpty = false := by
      rcases hrem : remaining with _ | ⟨a, l⟩
      · rw [hrem] at hsub
        exact absurd (hsub n0 hn0) (List.not_mem_nil n0)
      · rfl
    have hCnotzero : ∀ n ∈ C, noUnresolvedDep edges remaining n = false := by
      intro n hn
      rcases hCclosed n hn with ⟨m, hm, e, he, hsrcm, htgtn⟩
      exact (noUnresolvedDep_false_iff edges remaining n).mpr
        ⟨e, he, htgtn, hsrcm ▸ hsub m hm⟩
    by_cases hz : (remaining.filter (noUnresolvedDep edges remaining)).isEmpty = true
    · refine ⟨remaining, ?_, hsub⟩
      simp [kahnLoop, hne, hz]
    · have hsub' : ∀ n ∈ C, n ∈ remaining.filter (fun n =>
          !((remaining.filter (noUnresolvedDep edges remaining)).contains n)) := by
        intro n hn
        refine List.mem_filter.mpr ⟨hsub n hn, ?_⟩
        have hor : n ∉ remaining ∨ noUnresolvedDep edges remaining n = false :=
          Or.inr (hCnotzero n hn)
        simpa using hor
      rcases ih _ hsub' with ⟨r, hrec, hsubr⟩
      refine ⟨r, ?_, hsubr⟩
      simp only [kahnLoop, hne]
      rw [if_neg (by simp), if_neg hz, hrec]

/-- From a non-trivial path witnessing a cycle, the list of nodes along the
path is a set in which every node has an in-neighbour inside the set or equal
to the path's start. -/
theorem transGen_closed_set (R : String → String → Prop) (a b : String)
    (h : Relation.TransGen R a b) :
    ∃ C : List String, b ∈ C ∧ ∀ x ∈ C, ∃ y, R y x ∧ (y ∈ C ∨ y = a) := by
  induction h with
  | single hab =>
    rename_i c
    refine ⟨[c], List.mem_singleton.mpr rfl, ?_⟩
    intro x hx
    rw [List.mem_singleton.mp hx]
    exact ⟨a, hab, Or.inr rfl⟩
  | tail hac hcb ihC =>
    rename_i c d
    rcases ihC with ⟨C, hcC, hC⟩
    refine ⟨d :: C, List.mem_cons_self d C, ?_⟩
    intro x hx
    rcases List.mem_cons.mp hx with rfl | hxC
    · exact ⟨c, hcb, Or.inl (List.mem_cons_of_mem x hcC)⟩
    · rcases hC x hxC with ⟨y, hyx, hyC | hya⟩
      · exact ⟨y, hyx, Or.inl (List.mem_cons_of_mem d hyC)⟩
      · exact ⟨y, hyx, Or.inr hya⟩

/-- The node set of a cycle through n: non-empty, containing n, and closed
under taking in-neighbours inside the set. -/
theorem cycle_closed_set (R : String → String → Prop) (n : String)
    (h : Relation.TransGen R n n) :
    ∃ C : List String, n ∈ C ∧ C ≠ [] ∧ ∀ x ∈ C, ∃ y ∈ C, R y x := by
  rcases transGen_closed_set R n n h with ⟨C, hnC, hC⟩
  refine ⟨C, hnC, ?_, ?_⟩
  · rintro rfl
    exact List.not_mem_nil n hnC
  · intro x hx
    rcases hC x hx with ⟨y, hyx, hy | rfl⟩
    · exact ⟨y, hy, hyx⟩
    · exact ⟨y, hnC, hyx⟩

/-- Pigeonhole: a non-empty set of instances, each with an in-neighbour
inside the set, contains a node that lies on a directed cycle. -/
theorem closed_set_has_cycle (edges : List Edge) (r : List String) (hne : r ≠ [])
    (hclosed : ∀ n ∈ r, ∃ m ∈ r, hasEdge edges m n) :
    ∃ n ∈ r, Relation.TransGen (hasEdge edges) n n := by
  classical
  have hch : ∀ x, ∃ y, x ∈ r → (y ∈ r ∧ hasEdge edges y x) := by
    intro x
    by_cases hx : x ∈ r
    · rcases hclosed x hx with ⟨m, hm, hedge⟩
      exact ⟨m, fun _ => ⟨hm, hedge⟩⟩
    · exact ⟨x, fun hx' => absurd hx' hx⟩
  choose g hg using hch
  obtain ⟨n0, hn0⟩ := List.exists_mem_of_ne_nil r hne
  have hiter : ∀ k, g^[k] n0 ∈ r := by
    intro k
    induction k with
    | zero => simpa using hn0
    | succ k ihk =>
      rw [Function.iterate_succ_apply']
      exact (hg _ ihk).1
  have hstep : ∀ x ∈ r, hasEdge edges (g x) x := fun x hx => (hg x hx).2
  have htg : ∀ (d : Nat) (i : Nat),
      Relation.TransGen (hasEdge edges) (g^[d + 1 + i] n0) (g^[i] n0) := by
    intro d
    induction d with
    | zero =>
      intro i
      have h1 : g^[0 + 1 + i] n0 = g (g^[i] n0) := by
        have : 0 + 1 + i = i + 1 := by omega
        rw [this, Function.iterate_succ_apply']
      rw [h1]
      exact Relation.TransGen.single (hstep _ (hiter i))
    | succ d ihd =>
      intro i
      have h1 : g^[d + 1 + 1 + i] n0 = g (g^[d + 1 + i] n0) := by
        have : d + 1 + 1 + i = (d + 1 + i) + 1 := by omega
        rw [this, Function.iterate_succ_apply']
      rw [h1]
      exact Relation.TransGen.head (hstep _ (hiter (d + 1 + i))) (ihd i)
  have hmap : ∀ k ∈ Finset.range (r.length + 1),
      r.indexOf (g^[k] n0) ∈ Finset.range r.length := by
    intro k _
    exact Finset.mem_range.mpr (List.indexOf_lt_length.mpr (hiter k))
  have hcard : (Finset.range r.length).card < (Finset.range (r.length + 1)).card := by simp
  rcases Finset.exists_ne_map_eq_of_card_lt_of_maps_to hcard hmap with
    ⟨i, _, j, _, hij, hidx⟩
  have hy : g^[i] n0 = g^[j] n0 := (List.indexOf_inj (hiter i) (hiter j)).mp hidx
  have key : ∀ i j : Nat, i < j → g^[i] n0 = g^[j] n0 →
      ∃ n ∈ r, Relation.TransGen (hasEdge edges) n n := by
    intro i j hlt heq
    have harith : j = (j - i - 1) + 1 + i := by omega
    have htgij := htg (j - i - 1) i
    rw [← harith] at htgij
    rw [← heq] at htgij
    exact ⟨g^[i] n0, hiter i, htgij⟩
  rcases Nat.lt_or_ge i j with hlt | hge
  · exact key i j hlt hy
  · exact key j i (by omega) hy.symm

/-- A relation whose every step goes from x to y, with x different from y,
has no directed cycle. -/
theorem transGen_irrefl_of_single_step {R : String → String → Prop} (x y : String)
    (hR : ∀ a b, R a b → a = x ∧ b = y) (hxy : x ≠ y) :
    ∀ n, ¬ Relation.TransGen R n n := by
  have hall : ∀ a b, Relation.TransGen R a b → a = x ∧ b = y := by
    intro a b h
    induction h with
    | single h1 => exact hR _ _ h1
    | tail h1 h2 ihx =>
      rcases hR _ _ h2 with ⟨hcx, hby⟩
      rcases ihx with ⟨hax, hcy⟩
      exact absurd (hcx.symm.trans hcy) hxy
  intro n hn
  rcases hall n n hn with ⟨rfl, hy⟩
  exact hxy hy

/-- C1: for every valid acyclic workflow graph (ids unique, edge endpoints
resolving, edge relation without directed cycles), order() succeeds with a
batch sequence that partitions the instance ids exactly once (its flattening
is a duplicate-free permutation of the ids, with no empty batch), and every
edge's source sits in a strictly earlier batch than its target. -/
theorem scheduler_order_correct {α : Type} (g : WorkflowGraph α)
    (hnd : (ids g).Nodup)
    (hend : ∀ e ∈ g.edges, e.source ∈ ids g ∧ e.target ∈ ids g)
    (hacyc : ∀ n, ¬ Relation.TransGen (hasEdge g.edges) n n) :
    ∃ bs, order g = .ok bs ∧ bs.flatten.Perm (ids g) ∧ bs.flatten.Nodup ∧
      (∀ b ∈ bs, b ≠ []) ∧
      (∀ e ∈ g.edges, ∃ i j, i < j ∧ ∃ (hi : i < bs.length) (hj : j < bs.length),
        e.source ∈ bs.get ⟨i, hi⟩ ∧ e.target ∈ bs.get ⟨j, hj⟩) := by
  cases horder : order g with
  | error r =>
    exfalso
    rcases kahnLoop_error_closed g.edges (ids g).length (ids g) r le_rfl horder with
      ⟨hne, hclosed⟩
    rcases closed_set_has_cycle g.edges r hne hclosed with ⟨n, _, htg⟩
    exact hacyc n htg
  | ok bs =>
    have hperm := kahnLoop_flatten_perm g.edges (ids g).length (ids g) bs horder
    refine ⟨bs, rfl, hperm, hperm.nodup_iff.mpr hnd,
      kahnLoop_batches_ne_nil g.edges (ids g).length (ids g) bs horder, ?_⟩
    intro e he
    exact kahnLoop_edge_order g.edges (ids g).length (ids g) bs horder e he
      (hend e he).1 (hend e he).2

/-- Witness for C1: on the two-node graph A -> B the scheduler produces a
valid batch sequence. -/
theorem scheduler_order_correct_witness :
    ((ids gAB).Nodup ∧ (∀ e ∈ gAB.edges, e.source ∈ ids gAB ∧ e.target ∈ ids gAB) ∧
     (∀ n, ¬ Relation.TransGen (hasEdge gAB.edges) n n)) ∧
    (∃ bs, order gAB = .ok bs ∧ bs.flatten.Perm (ids gAB) ∧ bs.flatten.Nodup ∧
      (∀ b ∈ bs, b ≠ []) ∧
      (∀ e ∈ gAB.edges, ∃ i j, i < j ∧ ∃ (hi : i < bs.length) (hj : j < bs.length),
        e.source ∈ bs.get ⟨i, hi⟩ ∧ e.target ∈ bs.get ⟨j, hj⟩)) := by
  have hacyc : ∀ n, ¬ Relation.TransGen (hasEdge gAB.edges) n n := by
    refine transGen_irrefl_of_single_step "A" "B" ?_ (by decide)
    intro a b hab
    rcases hab with ⟨e, he, hsrc, htgt⟩
    have he' : e = edgeAB := by simpa [gAB] using he
    subst he'
    exact ⟨hsrc.symm, htgt.symm⟩
  exact ⟨⟨by decide, by decide, hacyc⟩,
    scheduler_order_correct gAB (by decide) (by decide) hacyc⟩

/-- C2: for every workflow graph whose edge set contains a directed cycle
(and whose edge endpoints reference graph instances), order() returns a
CycleError that is non-empty and names the cycle's nodes, among them at least
one lying on a cycle, and the Execution Engine is never invoked: for every
registry, executeWorkflow aborts with that CycleError, so no ExecutionResult
is produced for any instance. -/
theorem scheduler_cycle_error {α : Type} (g : WorkflowGraph α)
    (hend : ∀ e ∈ g.edges, e.source ∈ ids g ∧ e.target ∈ ids g)
    (n : String) (hcyc : Relation.TransGen (hasEdge g.edges) n n) :
    ∃ r, order g = .error r ∧ r ≠ [] ∧ n ∈ r ∧
      (∃ m ∈ r, Relation.TransGen (hasEdge g.edges) m m) ∧
      (∀ reg : Registry α, executeWorkflow reg g = .error r) := by
  rcases cycle_closed_set (hasEdge g.edges) n hcyc with ⟨C, hnC, hCne, hCclosed⟩
  have hCsub : ∀ x ∈ C, x ∈ ids g := by
    intro x hx
    rcases hCclosed x hx with ⟨y, hy, e, he, hsrc, htgt⟩
    exact htgt ▸ (hend e he).2
  rcases kahnLoop_cycle_stalls g.edges C hCne hCclosed (ids g).length (ids g) hCsub with
    ⟨r, herr, hsub⟩
  refine ⟨r, herr, ?_, hsub n hnC, ⟨n, hsub n hnC, hcyc⟩, ?_⟩
  · rintro rfl
    exact List.not_mem_nil n (hsub n hnC)
  · intro reg
    unfold executeWorkflow
    rw [show order g = Except.error r from herr]

/-- Witness for C2: the spec's two-node cycle A.out -> B.in, B.out -> A.in
yields a CycleError mentioning both A and B, and no engine run. -/
theorem scheduler_cycle_error_witness :
    ((∀ e ∈ gCyc.edges, e.source ∈ ids gCyc ∧ e.target ∈ ids gCyc) ∧
     Relation.TransGen (hasEdge gCyc.edges) "A" "A") ∧
    (∃ r, order gCyc = .error r ∧ r ≠ [] ∧ "A" ∈ r ∧
      (∃ m ∈ r, Relation.TransGen (hasEdge gCyc.edges) m m) ∧
      (∀ reg : Registry Int, executeWorkflow reg gCyc = .error r)) := by
  have hAB : hasEdge gCyc.edges "A" "B" :=
    ⟨⟨"A", "out", "B", "in"⟩, by simp [gCyc], rfl, rfl⟩
  have hBA : hasEdge gCyc.edges "B" "A" :=
    ⟨⟨"B", "out", "A", "in"⟩, by simp [gCyc], rfl, rfl⟩
  have hcyc : Relation.TransGen (hasEdge gCyc.edges) "A" "A" :=
    Relation.TransGen.head hAB (Relation.TransGen.single hBA)
  exact ⟨⟨by decide, hcyc⟩, scheduler_cycle_error gCyc (by decide) "A" hcyc⟩

-- Execution Engine lemmas

/-- The engine appends one result entry per scheduled instance, in order. -/
theorem runSchedule_fst {α : Type} (reg : Registry α) (g : WorkflowGraph α) :
    ∀ (l : List String) (res : List (String × ExecutionResult α)),
      ∃ entries, (runSchedule reg g l res).1 = res ++ entries ∧
        entries.map Prod.fst = l := by
  intro l
  induction l with
  | nil =>
    intro res
    exact ⟨[], by simp [runSchedule], rfl⟩
  | cons iid rest ih =>
    intro res
    rcases ih (res ++ [(iid, (execStep reg g res iid).1)]) with ⟨entries, h1, h2⟩
    refine ⟨(iid, (execStep reg g res iid).1) :: entries, ?_, by simp [h2]⟩
    simp only [runSchedule]
    rw [h1]
    simp

/-- The invocation trace counts every instance at most as often as the
schedule lists it. -/
theorem runSchedule_trace_count {α : Type} (reg : Registry α) (g : WorkflowGraph α) :
    ∀ (l : List String) (res : List (String × ExecutionResult α)) (i : String),
      (runSchedule reg g l res).2.count i ≤ l.count i := by
  intro l
  induction l with
  | nil =>
    intro res i
    simp [runSchedule]
  | cons iid rest ih =>
    intro res i
    have hrest := ih (res ++ [(iid, (execStep reg g res iid).1)]) i
    simp only [runSchedule, List.count_append, List.count_cons]
    by_cases hii : i = iid
    · subst hii
      cases hinv : (execStep reg g res i).2 <;> simp <;> omega
    · cases hinv : (execStep reg g res iid).2 <;> simp [hii] <;> omega

/-- Only the branch that actually invokes the execution function can yield a
success status. -/
theorem execStep_success_invoked {α : Type} (reg : Registry α) (g : WorkflowGraph α)
    (res : List (String × ExecutionResult α)) (iid : String) :
    (execStep reg g res iid).1.status = .success → (execStep reg g res iid).2 = true := by
  unfold execStep
  repeat' split
  all_goals try simp
  all_goals (split_ifs <;> try simp)
  all_goals (split <;> simp)

/-- Looking a key up past a prefix that does not hold it. -/
theorem lookupResult_append_right {α : Type} (res₁ res₂ : List (String × ExecutionResult α))
    (i : String) (h : ∀ p ∈ res₁, p.1 ≠ i) :
    lookupResult (res₁ ++ res₂) i = lookupResult res₂ i := by
  induction res₁ with
  | nil => rfl
  | cons p ps ihp =>
    have hpp : (p.1 == i) = false :=
      beq_eq_false_iff_ne.mpr (h p (List.mem_cons_self p ps))
    unfold lookupResult at ihp ⊢
    simp only [List.cons_append, List.find?_cons, hpp]
    exact ihp (fun q hq => h q (List.mem_cons_of_mem p hq))

/-- An instance whose final result is a success was invoked: its id appears
in the invocation trace. -/
theorem runSchedule_success_invoked {α : Type} (reg : Registry α) (g : WorkflowGraph α) :
    ∀ (l : List String) (res : List (String × ExecutionResult α)) (i : String)
      (r : ExecutionResult α),
      l.Nodup → (∀ p ∈ res, p.1 ∉ l) → i ∈ l →
      lookupResult (runSchedule reg g l res).1 i = some r → r.status = .success →
      i ∈ (runSchedule reg g l res).2 := by
  intro l
  induction l with
  | nil =>
    intro res i r _ _ hi
    exact absurd hi (List.not_mem_nil i)
  | cons iid rest ih =>
    intro res i r hnd hkeys hi hlook hsucc
    rcases List.mem_cons.mp hi with rfl | hirest
    · -- i is the head: its entry is the one appended at this step
      have hres0 : ∀ p ∈ res, p.1 ≠ i := fun p hp heq =>
        hkeys p hp (heq ▸ List.mem_cons_self i rest)
      rcases runSchedule_fst reg g rest (res ++ [(i, (execStep reg g res i).1)]) with
        ⟨entries, h1, h2⟩
      have hfst : (runSchedule reg g (i :: rest) res).1 =
          (res ++ [(i, (execStep reg g res i).1)]) ++ entries := by
        simp only [runSchedule]
        exact h1
      have hstep : lookupResult (runSchedule reg g (i :: rest) res).1 i =
          some (execStep reg g res i).1 := by
        rw [hfst, List.append_assoc, lookupResult_append_right res _ i hres0]
        unfold lookupResult
        rw [List.singleton_append]
        simp only [List.find?_cons, beq_self_eq_true]
        rfl
      rw [hstep] at hlook
      cases hlook
      have hinv := execStep_success_invoked reg g res i hsucc
      simp [runSchedule, hinv]
    · -- i is executed later in the schedule
      have hnd' : rest.Nodup := hnd.of_cons
      have hiidrest : iid ∉ rest := (List.nodup_cons.mp hnd).1
      have hkeys' : ∀ p ∈ res ++ [(iid, (execStep reg g res iid).1)], p.1 ∉ rest := by
        intro p hp
        rcases List.mem_append.mp hp with hp1 | hp2
        · exact fun hmem => hkeys p hp1 (List.mem_cons_of_mem iid hmem)
        · rw [List.mem_singleton.mp hp2]
          exact hiidrest
      have hmem := ih (res ++ [(iid, (execStep reg g res iid).1)]) i r hnd' hkeys' hirest
        (by
          have : (runSchedule reg g (iid :: rest) res).1 =
              (runSchedule reg g rest (res ++ [(iid, (execStep reg g res iid).1)])).1 := by
            simp [runSchedule]
          rw [← this]
          exact hlook) hsucc
      simp only [runSchedule]
      exact List.mem_append_right _ hmem

/-- C3 amended: in every engine run, every instance's execution function is
invoked at most once; an instance whose cached ExecutionResult is a success
was invoked exactly once, regardless of its out-degree; and any two consumer
edges reading the same source instance and source port obtain identical
values from the same cached ExecutionResult (an instance skipped because of
an upstream failure is invoked zero times, see the counterexample). -/
theorem engine_single_evaluation {α : Type} (reg : Registry α) (g : WorkflowGraph α)
    (hnd : (ids g).Nodup) (res : List (String × ExecutionResult α)) (tr : List String)
    (hrun : executeWorkflow reg g = .ok (res, tr)) :
    (∀ iid, tr.count iid ≤ 1) ∧
    (∀ iid r, lookupResult res iid = some r → r.status = .success → tr.count iid = 1) ∧
    (∀ e1 ∈ g.edges, ∀ e2 ∈ g.edges, e1.source = e2.source → e1.sourcePort = e2.sourcePort →
      consumerValue res e1 = consumerValue res e2) := by
  unfold executeWorkflow at hrun
  cases horder : order g with
  | error r0 =>
    rw [horder] at hrun
    exact Except.noConfusion hrun
  | ok bs =>
    rw [horder] at hrun
    injection hrun with hpair
    have hres : (runSchedule reg g bs.flatten []).1 = res := congrArg Prod.fst hpair
    have htr : (runSchedule reg g bs.flatten []).2 = tr := congrArg Prod.snd hpair
    have hfnd : bs.flatten.Nodup :=
      ((kahnLoop_flatten_perm g.edges (ids g).length (ids g) bs horder).nodup_iff).mpr hnd
    have hcount1 : ∀ iid, tr.count iid ≤ 1 := by
      intro iid
      rw [← htr]
      exact le_trans (runSchedule_trace_count reg g bs.flatten [] iid)
        (List.nodup_iff_count_le_one.mp hfnd iid)
    refine ⟨hcount1, ?_, ?_⟩
    · intro iid r hlook hsucc
      rw [← hres] at hlook
      have hikeys : iid ∈ bs.flatten := by
        rcases runSchedule_fst reg g bs.flatten [] with ⟨entries, h1, h2⟩
        have hlook' := hlook
        rw [h1] at hlook'
        simp only [List.nil_append] at hlook'
        unfold lookupResult at hlook'
        rcases hfind : entries.find? (fun p => p.1 == iid) with _ | p
        · rw [hfind] at hlook'
          exact Option.noConfusion hlook'
        · have hpm := List.mem_of_find?_eq_some hfind
          have hpi : p.1 = iid := by simpa using List.find?_some hfind
          rw [← h2, ← hpi]
          exact List.mem_map_of_mem Prod.fst hpm
      have hmemtr : iid ∈ tr := by
        rw [← htr]
        exact runSchedule_success_invoked reg g bs.flatten [] iid r hfnd (by simp) hikeys
          hlook hsucc
      exact le_antisymm (hcount1 iid) (List.one_le_count_iff.mpr hmemtr)
    · intro e1 _ e2 _ hsrc hport
      simp [consumerValue, hsrc, hport]

/-- Witness for C3 amended: the fan-out fixture run invokes X once, its
result is cached and both consumers read the same value. -/
theorem engine_single_evaluation_witness :
    ((ids gFan).Nodup ∧
      executeWorkflow regEx gFan = .ok (resFan, ["X", "B", "C"])) ∧
    ((∀ iid, (["X", "B", "C"] : List String).count iid ≤ 1) ∧
     (∀ iid r, lookupResult resFan iid = some r →
       r.status = .success → (["X", "B", "C"] : List String).count iid = 1) ∧
     (∀ e1 ∈ gFan.edges, ∀ e2 ∈ gFan.edges,
       e1.source = e2.source → e1.sourcePort = e2.sourcePort →
       consumerValue resFan e1 = consumerValue resFan e2)) :=
  ⟨⟨by decide, rfl⟩,
   engine_single_evaluation regEx gFan (by decide) resFan ["X", "B", "C"] rfl⟩

/-- C3 counterexample: in the run of the fixture graph gFanFail, the node X
feeds two downstream consumers (out-degree 2), yet its execution function is
invoked zero times, not once: X is skipped because its dependency F failed,
exactly as the skip rule of the spec prescribes, so the unqualified
exactly-once claim fails. -/
theorem engine_fanout_counterexample :
    (gFanFail.edges.filter (fun e => e.source == "X")).length = 2 ∧
    executeWorkflow regEx gFanFail =
      .ok ([("F", ⟨[], .failed "boom"⟩), ("X", ⟨[], .skipped⟩),
            ("B", ⟨[], .skipped⟩), ("C", ⟨[], .skipped⟩)], ["F"]) ∧
    (["F"] : List String).count "X" = 0 :=
  ⟨rfl, rfl, rfl⟩

end PlateeRAG
